import Mathlib

/-!
# Verification of the Pokédex backend (Convex functions)

A shallow embedding of the backend of the `pokedex-react` repository:

* the paginated/filtered `list` query, `getFavorites`, `addToFavorites`,
  `removeFromFavorites` (`src/convex/pokemon.ts`);
* the internal cache mutations `cachePokemon` and `cacheType` and the helper
  `getGenerationFromId` (`convex/pokemonInternal.ts`, the patch-in-place
  revision);
* the bulk `fetchAndCachePokemon` action that computes its target id list
  directly from `[offset+1, offset+limit]` (`convex/pokemonActions.ts`).

Convex tables are modelled as Lean lists in creation order; `ctx.db.insert`
appends, `ctx.db.patch` on a document found by an index query replaces the
first matching list entry (the patches in this code set every schema field,
so a patch amounts to replacing the document).  JavaScript numbers that the
code only ever uses as non-negative integers (ids, limits, offsets) are
modelled as `Nat`; the `generation` query argument is modelled as `Int` so
that the `> 0` validity test is meaningful.  The network is modelled as an
oracle (`World`) giving the upstream JSON payload for each id.
-/

/-! ## JavaScript string primitives used by the code -/

/-- ASCII model of `String.prototype.toLowerCase` for a single character:
uppercase ASCII letters map to their lowercase form, everything else is
unchanged (the repository only ever lowercases Pokémon/type names and search
text, which are ASCII). -/
def charToLower (c : Char) : Char :=
  match c with
  | 'A' => 'a' | 'B' => 'b' | 'C' => 'c' | 'D' => 'd' | 'E' => 'e'
  | 'F' => 'f' | 'G' => 'g' | 'H' => 'h' | 'I' => 'i' | 'J' => 'j'
  | 'K' => 'k' | 'L' => 'l' | 'M' => 'm' | 'N' => 'n' | 'O' => 'o'
  | 'P' => 'p' | 'Q' => 'q' | 'R' => 'r' | 'S' => 's' | 'T' => 't'
  | 'U' => 'u' | 'V' => 'v' | 'W' => 'w' | 'X' => 'x' | 'Y' => 'y'
  | 'Z' => 'z'
  | c => c

/-- `s.toLowerCase()`. -/
def lowerStr (s : String) : String := ⟨s.data.map charToLower⟩

/-- Whitespace recognizer for the ASCII fragment of `String.prototype.trim`. -/
def isWsChar (c : Char) : Bool :=
  c = ' ' || c = '\t' || c = '\n' || c = '\r' || c = '\x0b' || c = '\x0c'

/-- `s.trim()` (ASCII whitespace). -/
def trimStr (s : String) : String :=
  ⟨((s.data.dropWhile isWsChar).reverse.dropWhile isWsChar).reverse⟩

/-- `needle` is a prefix of `hay` (boolean, by direct recursion). -/
def isPrefixB : List Char → List Char → Bool
  | [], _ => true
  | _ :: _, [] => false
  | a :: as, b :: bs => a = b && isPrefixB as bs

/-- `needle` occurs contiguously inside `hay` (boolean). -/
def isInfixB (needle : List Char) : List Char → Bool
  | [] => isPrefixB needle []
  | b :: t => isPrefixB needle (b :: t) || isInfixB needle t

/-- `s.includes(sub)`. -/
def jsIncludes (s sub : String) : Bool := isInfixB sub.data s.data

/-- The character for a single decimal digit (`d` is always taken mod 10 by
the caller). -/
def digitToChar (d : Nat) : Char :=
  if d = 0 then '0' else if d = 1 then '1' else if d = 2 then '2'
  else if d = 3 then '3' else if d = 4 then '4' else if d = 5 then '5'
  else if d = 6 then '6' else if d = 7 then '7' else if d = 8 then '8'
  else '9'

/-- Fuel-driven decimal rendering (fuel `n+1` always suffices for `n`). -/
def decimalDigitsGo : Nat → Nat → List Char
  | 0, _ => []
  | fuel + 1, n =>
    if n < 10 then [digitToChar n]
    else decimalDigitsGo fuel (n / 10) ++ [digitToChar (n % 10)]

/-- `n.toString()` for a non-negative integer: base-10 rendering. -/
def decimalStr (n : Nat) : String := ⟨decimalDigitsGo (n + 1) n⟩

/-! ## Data model (Convex documents) -/

/-- One entry of the `abilities` array of a cached Pokémon document. -/
structure AbilityDoc where
  name : String
  isHidden : Bool
deriving DecidableEq, Repr

/-- One entry of the `stats` array of a cached Pokémon document. -/
structure StatDoc where
  name : String
  baseStat : Int
  effort : Int
deriving DecidableEq, Repr

/-- The `sprites` object of a cached Pokémon document. -/
structure SpritesDoc where
  frontDefault : Option String := none
  frontShiny : Option String := none
  officialArtwork : Option String := none
deriving DecidableEq, Repr

/-- A document of the `pokemon` table. -/
structure PokemonDoc where
  pokemonId : Nat
  name : String
  height : Int
  weight : Int
  baseExperience : Option Int := none
  types : List String := []
  abilities : List AbilityDoc := []
  stats : List StatDoc := []
  sprites : SpritesDoc := {}
  moves : List String := []
  generation : Nat
deriving DecidableEq, Repr

/-- A document of the `pokemonSpecies` table. -/
structure SpeciesDoc where
  pokemonId : Nat
  name : String
  flavorText : String
  genus : Option String := none
  captureRate : Option Int := none
  baseHappiness : Option Int := none
  growthRate : Option String := none
  habitat : Option String := none
  evolutionChainId : Option Nat := none
  generation : Nat
deriving DecidableEq, Repr

/-- A document of the `pokemonTypes` table. -/
structure TypeDoc where
  name : String
  color : String
deriving DecidableEq, Repr

/-- A document of the `favorites` table (its natural key; the Convex `_id`
is the position in the list). -/
structure Fav where
  userId : Nat
  pokemonId : Nat
deriving DecidableEq, Repr

/-- The cache store: the three tables populated by the Fetcher, each in
creation order. -/
structure CacheState where
  pokemon : List PokemonDoc := []
  species : List SpeciesDoc := []
  types : List TypeDoc := []
deriving Repr

/-! ## Generation helpers -/

/-- `getGenerationFromId` from `convex/pokemonInternal.ts`. -/
def getGenerationFromId (id : Nat) : Nat :=
  if id ≤ 151 then 1
  else if id ≤ 251 then 2
  else if id ≤ 386 then 3
  else if id ≤ 493 then 4
  else if id ≤ 649 then 5
  else if id ≤ 721 then 6
  else if id ≤ 809 then 7
  else if id ≤ 905 then 8
  else 9

/-- An inclusive id range of one generation. -/
structure GenRange where
  start : Nat
  stop : Nat
deriving DecidableEq, Repr

/-- The static `GEN_RANGES` table of `src/convex/pokemon.ts`
(`Record<number, {start, end}>`; absent keys give `none`). -/
def GEN_RANGES (g : Int) : Option GenRange :=
  if g = 1 then some ⟨1, 151⟩
  else if g = 2 then some ⟨152, 251⟩
  else if g = 3 then some ⟨252, 386⟩
  else if g = 4 then some ⟨387, 493⟩
  else if g = 5 then some ⟨494, 649⟩
  else if g = 6 then some ⟨650, 721⟩
  else if g = 7 then some ⟨722, 809⟩
  else if g = 8 then some ⟨810, 905⟩
  else if g = 9 then some ⟨906, 1025⟩
  else none

/-! ## Upstream JSON payloads (defensive optional shapes)

The external API returns loosely-typed JSON; `cachePokemon` accesses it with
optional chaining and defaults.  We give the payload a typed shape containing
exactly the fields the code reads, all optional where the code defends. -/

/-- One entry of the upstream `abilities` array (`a?.ability?.name`,
`a?.is_hidden`). -/
structure RawAbility where
  name : Option String := none
  isHidden : Option Bool := none
deriving Repr

/-- One entry of the upstream `stats` array. -/
structure RawStat where
  name : Option String := none
  baseStat : Option Int := none
  effort : Option Int := none
deriving Repr

/-- The upstream `sprites` object. -/
structure RawSprites where
  frontDefault : Option String := none
  frontShiny : Option String := none
  officialArtwork : Option String := none
deriving Repr

/-- The upstream Pokémon detail document (fields read by `cachePokemon`).
The arrays are `[]` when the upstream field is missing or not an array,
matching the `Array.isArray(...) ? ... : []` guards. -/
structure RawPokemon where
  id : Nat
  name : Option String := none
  height : Option Int := none
  weight : Option Int := none
  baseExperience : Option Int := none
  types : List (Option String) := []
  abilities : List RawAbility := []
  stats : List RawStat := []
  sprites : RawSprites := {}
  moves : List (Option String) := []
deriving Repr

/-- One entry of the upstream `flavor_text_entries` array. -/
structure RawFlavorEntry where
  language : Option String := none
  text : Option String := none
deriving Repr

/-- One entry of the upstream `genera` array. -/
structure RawGenus where
  language : Option String := none
  genus : Option String := none
deriving Repr

/-- The upstream species detail document (fields read by `cachePokemon`). -/
structure RawSpecies where
  name : Option String := none
  flavorTextEntries : List RawFlavorEntry := []
  genera : List RawGenus := []
  captureRate : Option Int := none
  baseHappiness : Option Int := none
  growthRate : Option String := none
  habitat : Option String := none
  evolutionChainUrl : Option String := none
deriving Repr

/-- `text.replace(/\f/g, " ")`: form feeds become spaces. -/
def replaceFormFeeds (s : String) : String :=
  ⟨s.data.map (fun c => if c = '\x0c' then ' ' else c)⟩

/-- Leading-decimal parse modelling `parseInt` on the numeric path segments
of upstream URLs (the segments are plain decimal; a segment with no leading
digits, where `parseInt` yields `NaN`, is collapsed to `0`). -/
def parseLeadingNat (s : String) : Nat :=
  (s.data.takeWhile Char.isDigit).foldl (fun acc c => acc * 10 + (c.toNat - 48)) 0

/-- `url.split("/").slice(-2, -1)[0]`: the second-to-last slash-separated
segment. -/
def secondToLastSegment (url : String) : String :=
  let parts := url.splitOn "/"
  parts.getD (parts.length - 2) ""

/-! ## `pokemonInternal.cachePokemon` (patch-in-place revision) -/

/-- The normalized Pokémon document built by `cachePokemon` from the raw
payload (`pokemonDoc` in the source). -/
def buildPokemonDoc (pd : RawPokemon) : PokemonDoc where
  pokemonId := pd.id
  name := pd.name.getD ""
  height := pd.height.getD 0
  weight := pd.weight.getD 0
  baseExperience := pd.baseExperience
  types := pd.types.filterMap id
  abilities := pd.abilities.map fun a => ⟨a.name.getD "", a.isHidden.getD false⟩
  stats := pd.stats.map fun s => ⟨s.name.getD "", s.baseStat.getD 0, s.effort.getD 0⟩
  sprites := ⟨pd.sprites.frontDefault, pd.sprites.frontShiny, pd.sprites.officialArtwork⟩
  moves := (pd.moves.take 20).filterMap id
  generation := getGenerationFromId pd.id

/-- The normalized species document built by `cachePokemon`
(`speciesDoc` in the source). -/
def buildSpeciesDoc (pd : RawPokemon) (sd : RawSpecies) : SpeciesDoc where
  pokemonId := pd.id
  name := sd.name.getD ""
  flavorText :=
    ((sd.flavorTextEntries.find? (fun e => e.language = some "en")).bind
      (fun e => e.text.map replaceFormFeeds)).getD ""
  genus := (sd.genera.find? (fun g => g.language = some "en")).bind (·.genus)
  captureRate := sd.captureRate
  baseHappiness := sd.baseHappiness
  growthRate := sd.growthRate
  habitat := sd.habitat
  evolutionChainId :=
    sd.evolutionChainUrl.map (fun u => parseLeadingNat (secondToLastSegment u))
  generation := getGenerationFromId pd.id

/-- Replace the first element satisfying `pred` by `doc` (model of
`ctx.db.patch(first._id, doc)` where `doc` sets every schema field and
`first` is the first index match). -/
def replaceFirstBy (pred : α → Bool) (doc : α) : List α → List α
  | [] => []
  | x :: xs => if pred x then doc :: xs else x :: replaceFirstBy pred doc xs

/-- `pokemonInternal.cachePokemon`: upsert the Pokémon document keyed by
`pokemonData.id`, then upsert the species document keyed by the same id. -/
def cachePokemon (s : CacheState) (pd : RawPokemon) (sd : RawSpecies) : CacheState :=
  let doc := buildPokemonDoc pd
  let s1 :=
    if s.pokemon.any (fun p => p.pokemonId = pd.id) then
      { s with pokemon := replaceFirstBy (fun p => p.pokemonId = pd.id) doc s.pokemon }
    else
      { s with pokemon := s.pokemon ++ [doc] }
  let sdoc := buildSpeciesDoc pd sd
  if s1.species.any (fun q => q.pokemonId = pd.id) then
    { s1 with species := replaceFirstBy (fun q => q.pokemonId = pd.id) sdoc s1.species }
  else
    { s1 with species := s1.species ++ [sdoc] }

/-! ## `pokemonInternal.cacheType` (patch-in-place revision) -/

/-- Patch the color of the first type document named `n` (model of
`ctx.db.patch(first._id, {color})`). -/
def patchFirstTypeColor (n c : String) : List TypeDoc → List TypeDoc
  | [] => []
  | t :: ts => if t.name = n then { t with color := c } :: ts else t :: patchFirstTypeColor n c ts

/-- The normalized type name: `args.name.toLowerCase().trim()`. -/
def normTypeName (name : String) : String := trimStr (lowerStr name)

/-- `pokemonInternal.cacheType`: insert a new `{name, color}` document when
the (normalized) name is absent, otherwise patch the first matching
document's color when it differs. -/
def cacheType (s : CacheState) (name color : String) : CacheState :=
  let n := normTypeName name
  let existing := s.types.filter (fun t => t.name = n)
  match existing.head? with
  | none => { s with types := s.types ++ [⟨n, color⟩] }
  | some first =>
    if first.color ≠ color then
      { s with types := patchFirstTypeColor n color s.types }
    else s

/-! ## `pokemonActions.fetchAndCachePokemon` (direct id-list revision)

The action is modelled against a network oracle.  Within a batch the per-id
work runs under `Promise.all`, but every database access goes through a
serialized `runQuery`/`runMutation` and distinct ids never touch each other's
documents, so the observable effect on the store equals processing the ids
in order; the model processes them sequentially. -/

/-- The network oracle: upstream payloads per id, and the entries of the
global type catalog (`typesData.results`). -/
structure World where
  pokemonAt : Nat → RawPokemon
  speciesAt : Nat → RawSpecies
  typeNames : List String

/-- The local `typeColors` map of `cacheTypes` (an object literal). -/
def typeColors : List (String × String) :=
  [("normal", "#A8A878"), ("fire", "#F08030"), ("water", "#6890F0"),
   ("electric", "#F8D030"), ("grass", "#78C850"), ("ice", "#98D8D8"),
   ("fighting", "#C03028"), ("poison", "#A040A0"), ("ground", "#E0C068"),
   ("flying", "#A890F0"), ("psychic", "#F85888"), ("bug", "#A8B820"),
   ("rock", "#B8A038"), ("ghost", "#705898"), ("dragon", "#7038F8"),
   ("dark", "#705848"), ("steel", "#B8B8D0"), ("fairy", "#EE99AC")]

/-- `typeColors[type.name] || "#68A090"` (every stored color is a non-empty
string, so `||` is exactly a default for absent keys). -/
def typeColorFor (name : String) : String :=
  ((typeColors.find? (fun p => p.1 = name)).map Prod.snd).getD "#68A090"

/-- The `cacheTypes` helper: one `cacheType` mutation per catalog entry. -/
def cacheTypesRun (w : World) (s : CacheState) : CacheState :=
  w.typeNames.foldl (fun acc tn => cacheType acc tn (typeColorFor tn)) s

/-- `args.limit || 151` (a supplied `0` is falsy and selects the default). -/
def effFetchLimit : Option Nat → Nat
  | none => 151
  | some l => if l = 0 then 151 else l

/-- `args.offset || 0` (`0 || 0 = 0`, so a supplied value passes through). -/
def effFetchOffset : Option Nat → Nat
  | none => 0
  | some o => o

/-- The target id list:
`Array.from({length: limit}, (_, i) => offset + i + 1).filter(id => id <= 1025)`. -/
def idsFor (limitArg offsetArg : Option Nat) : List Nat :=
  let limit := effFetchLimit limitArg
  let offset := effFetchOffset offsetArg
  ((List.range limit).map (fun i => offset + i + 1)).filter (fun id => id ≤ 1025)

/-- Model of `getByIdInternal` used as a truthiness check: some document
with this `pokemonId` is cached. -/
def pokemonCached (s : CacheState) (id : Nat) : Bool :=
  s.pokemon.any (fun p => p.pokemonId = id)

/-- One loop body of the batch: skip an already-cached id, otherwise fetch
both payloads and run `cachePokemon`.  The second component records the id
when the upstream endpoints were actually hit. -/
def processId (w : World) (s : CacheState) (id : Nat) : CacheState × Option Nat :=
  if pokemonCached s id then (s, none)
  else (cachePokemon s (w.pokemonAt id) (w.speciesAt id), some id)

/-- Process a list of ids, collecting the ids that caused upstream fetches. -/
def processAll (w : World) : List Nat → CacheState → CacheState × List Nat
  | [], s => (s, [])
  | id :: rest, s =>
    let step := processId w s id
    let restOut := processAll w rest step.1
    (restOut.1, step.2.toList ++ restOut.2)

/-- The observable outcome of one `fetchAndCachePokemon` action call:
the returned value (`success`, `cached`), the resulting store, the ids whose
upstream endpoints were fetched, and whether the type catalog endpoint was
fetched. -/
structure FetchOutcome where
  success : Bool
  cached : Nat
  state : CacheState
  fetchedIds : List Nat
  typesRefreshed : Bool

/-- `fetchAndCachePokemon` from `convex/pokemonActions.ts`: build the id
list, return a zero-count success when it is empty, otherwise refresh the
type table and process every id (batching/concurrency folded to the
sequential order, see the section comment). -/
def fetchAndCachePokemon (w : World) (s : CacheState) (limitArg offsetArg : Option Nat) :
    FetchOutcome :=
  let ids := idsFor limitArg offsetArg
  if ids.isEmpty then ⟨true, 0, s, [], false⟩
  else
    let s1 := cacheTypesRun w s
    let out := processAll w ids s1
    ⟨true, ids.length, out.1, out.2, true⟩

/-! ## Query layer: the `list` query -/

/-- `args.limit || 20`. -/
def effLimit : Option Nat → Nat
  | none => 20
  | some l => if l = 0 then 20 else l

/-- `args.offset || 0`. -/
def effOffset : Option Nat → Nat
  | none => 0
  | some o => o

/-- Lines 19–48 of `src/convex/pokemon.ts`: choose the scanned record set.
`hasValidGeneration` is `typeof generation === "number" && isFinite && > 0`;
with the argument modelled as `Option Int` this is `0 < g`.  Index scans are
modelled as filters over the table in creation order: `by_generation` with an
equality key returns exactly the creation-ordered matching rows, and for the
`by_pokemon_id` range scan any ordering difference is erased downstream by
the id-keyed de-duplication and the stable id sort. -/
def selectResults (cache : List PokemonDoc) (generation : Option Int) : List PokemonDoc :=
  match generation with
  | none => cache
  | some g =>
    if 0 < g then
      let byGen := cache.filter (fun p => (p.generation : Int) = g)
      if byGen.isEmpty then
        match GEN_RANGES g with
        | some r => cache.filter (fun p => r.start ≤ p.pokemonId ∧ p.pokemonId ≤ r.stop)
        | none => []
      else byGen
    else cache

/-- Lines 50–55: de-duplicate by `pokemonId`, keeping the first-seen row
(the `Map`-based loop, with `seen` the set of ids already in the map). -/
def dedupGo (seen : List Nat) : List PokemonDoc → List PokemonDoc
  | [] => []
  | p :: ps =>
    if p.pokemonId ∈ seen then dedupGo seen ps
    else p :: dedupGo (p.pokemonId :: seen) ps

/-- De-duplication by id, keeping first by creation order. -/
def dedupById (l : List PokemonDoc) : List PokemonDoc := dedupGo [] l

/-- Lines 57–64: the search filter (skipped for a falsy, i.e. empty,
search string). -/
def searchFilter (search : Option String) (l : List PokemonDoc) : List PokemonDoc :=
  match search with
  | none => l
  | some s =>
    if s = "" then l
    else
      let searchLower := lowerStr s
      l.filter fun p =>
        jsIncludes (lowerStr p.name) searchLower ||
        jsIncludes (decimalStr p.pokemonId) searchLower

/-- Lines 66–72: the case-insensitive type filter (skipped for an absent or
empty list). -/
def typeFilter (types : Option (List String)) (l : List PokemonDoc) : List PokemonDoc :=
  match types with
  | none => l
  | some ts =>
    if ts.isEmpty then l
    else
      let filterTypes := ts.map lowerStr
      l.filter fun p => p.types.any (fun t => filterTypes.contains (lowerStr t))

/-- The sort key relation of `results.sort((a, b) => a.pokemonId - b.pokemonId)`. -/
def idLe (a b : PokemonDoc) : Prop := a.pokemonId ≤ b.pokemonId

instance : DecidableRel idLe := fun a b => Nat.decLe a.pokemonId b.pokemonId

instance : IsTotal PokemonDoc idLe := ⟨fun a b => Nat.le_total a.pokemonId b.pokemonId⟩

instance : IsTrans PokemonDoc idLe := ⟨fun _ _ _ h h' => Nat.le_trans h h'⟩

/-- Lines 74–75: the stable ascending sort by id (`Array.prototype.sort` is
stable, as is insertion sort). -/
def sortById (l : List PokemonDoc) : List PokemonDoc := List.insertionSort idLe l

/-- The whole select→dedup→search→type→sort pipeline, i.e. `results` just
before pagination. -/
def filteredSorted (cache : List PokemonDoc) (search : Option String)
    (types : Option (List String)) (generation : Option Int) : List PokemonDoc :=
  sortById (typeFilter types (searchFilter search (dedupById (selectResults cache generation))))

/-- The value returned by the `list` query. -/
structure ListResult where
  pokemon : List PokemonDoc
  total : Nat
  hasMore : Bool
deriving DecidableEq, Repr

/-- The `list` query handler: filter pipeline, then
`results.slice(offset, offset + limit)`, `total`, and
`hasMore = offset + limit < results.length`. -/
def list (cache : List PokemonDoc) (limitArg offsetArg : Option Nat)
    (search : Option String) (types : Option (List String)) (generation : Option Int) :
    ListResult :=
  let limit := effLimit limitArg
  let offset := effOffset offsetArg
  let results := filteredSorted cache search types generation
  ⟨(results.drop offset).take limit, results.length,
    decide (offset + limit < results.length)⟩

/-! ## Favorites -/

/-- The `by_user_and_pokemon` index predicate. -/
def favMatches (u pid : Nat) (f : Fav) : Bool :=
  f.userId = u && f.pokemonId = pid

/-- `query(...).unique()`: `none` for no match, the document for exactly one,
and a thrown error when several documents match. -/
def uniqueQuery : List α → Except String (Option α)
  | [] => .ok none
  | [x] => .ok (some x)
  | _ => .error "unique() query returned more than one document"

/-- `addToFavorites`: authentication gate, duplicate check via the
`(user, pokemonId)` index, then insert. -/
def addToFavorites (favs : List Fav) (user : Option Nat) (pid : Nat) :
    Except String (List Fav) :=
  match user with
  | none => .error "Must be authenticated to add favorites"
  | some u =>
    match uniqueQuery (favs.filter (favMatches u pid)) with
    | .error e => .error e
    | .ok (some _) => .error "Pokemon already in favorites"
    | .ok none => .ok (favs ++ [⟨u, pid⟩])

/-- `ctx.db.delete(favorite._id)`: remove the (first, and under the
uniqueness invariant only) matching document. -/
def removeFirstFav (u pid : Nat) : List Fav → List Fav
  | [] => []
  | f :: fs => if favMatches u pid f then fs else f :: removeFirstFav u pid fs

/-- `removeFromFavorites`: authentication gate, lookup via the
`(user, pokemonId)` index, not-found error, then delete. -/
def removeFromFavorites (favs : List Fav) (user : Option Nat) (pid : Nat) :
    Except String (List Fav) :=
  match user with
  | none => .error "Must be authenticated to remove favorites"
  | some u =>
    match uniqueQuery (favs.filter (favMatches u pid)) with
    | .error e => .error e
    | .ok none => .error "Pokemon not in favorites"
    | .ok (some _) => .ok (removeFirstFav u pid favs)

/-- `getFavorites`: empty list for an unauthenticated caller; otherwise the
user's favorites (by the `by_user` index), each mapped to the first cached
document with its id (`results[0] ?? null`), with the nulls filtered out. -/
def getFavorites (cache : List PokemonDoc) (favs : List Fav) (user : Option Nat) :
    List PokemonDoc :=
  match user with
  | none => []
  | some u =>
    let mine := favs.filter (fun f => f.userId = u)
    (mine.map (fun f => (cache.filter (fun p => p.pokemonId = f.pokemonId)).head?)).filterMap id

/-! ## Concrete sample data (for witnesses and counterexamples) -/

/-- The ten decimal digit characters. -/
def digitCharsList : List Char := ['0', '1', '2', '3', '4', '5', '6', '7', '8', '9']

/-- The 26 lowercase ASCII letters (images of `charToLower` on uppercase). -/
def lowerLetters : List Char :=
  ['a', 'b', 'c', 'd', 'e', 'f', 'g', 'h', 'i', 'j', 'k', 'l', 'm',
   'n', 'o', 'p', 'q', 'r', 's', 't', 'u', 'v', 'w', 'x', 'y', 'z']

/-- A minimal cached Pokémon document with a given id. -/
def samplePokemon (id : Nat) : PokemonDoc where
  pokemonId := id
  name := "a"
  height := 1
  weight := 1
  generation := getGenerationFromId id

/-- A minimal upstream payload whose id is the requested one. -/
def sampleWorld : World where
  pokemonAt := fun id => { id := id, name := some "a" }
  speciesAt := fun _ => { name := some "a" }
  typeNames := ["fire"]

/-- The empty cache store. -/
def emptyCache : CacheState := {}

/-- The data-model invariant: at most one cached Pokémon document and at most
one cached species document per id (stated as: the id sequences of both
tables are duplicate-free). -/
def cacheInv (s : CacheState) : Prop :=
  (s.pokemon.map (fun p => p.pokemonId)).Nodup
  ∧ (s.species.map (fun q => q.pokemonId)).Nodup

/-! # Theorems -/

/-! ## C9: generation breakpoints -/

set_option maxHeartbeats 1000000 in
/-- **C9.** For every id in `[1, 151]`, `getGenerationFromId id = 1`; and for
every id in `[1, 1025]` and every entry `GEN_RANGES g = some r` of the static
range table, `id` lies in `r` exactly when `g` is `getGenerationFromId id` —
so the breakpoints fall exactly at 151/251/386/493/649/721/809/905/1025, with
`getGenerationFromId 151 = 1` and `getGenerationFromId 152 = 2`. -/
theorem getGenerationFromId_breakpoints :
    (∀ id : Nat, 1 ≤ id → id ≤ 151 → getGenerationFromId id = 1)
    ∧ (∀ id : Nat, 1 ≤ id → id ≤ 1025 → ∀ (g : Int) (r : GenRange),
        GEN_RANGES g = some r →
        ((r.start ≤ id ∧ id ≤ r.stop) ↔ g = (getGenerationFromId id : Int)))
    ∧ getGenerationFromId 151 = 1 ∧ getGenerationFromId 152 = 2 := by
  refine ⟨?_, ?_, by decide, by decide⟩
  · intro id h1 h2
    unfold getGenerationFromId
    split_ifs <;> omega
  · intro id h1 h2 g r hr
    have hgen : (getGenerationFromId id = 1 ∧ id ≤ 151) ∨
        (getGenerationFromId id = 2 ∧ 152 ≤ id ∧ id ≤ 251) ∨
        (getGenerationFromId id = 3 ∧ 252 ≤ id ∧ id ≤ 386) ∨
        (getGenerationFromId id = 4 ∧ 387 ≤ id ∧ id ≤ 493) ∨
        (getGenerationFromId id = 5 ∧ 494 ≤ id ∧ id ≤ 649) ∨
        (getGenerationFromId id = 6 ∧ 650 ≤ id ∧ id ≤ 721) ∨
        (getGenerationFromId id = 7 ∧ 722 ≤ id ∧ id ≤ 809) ∨
        (getGenerationFromId id = 8 ∧ 810 ≤ id ∧ id ≤ 905) ∨
        (getGenerationFromId id = 9 ∧ 906 ≤ id) := by
      unfold getGenerationFromId
      split_ifs <;> omega
    unfold GEN_RANGES at hr
    split_ifs at hr with hg1 hg2 hg3 hg4 hg5 hg6 hg7 hg8 hg9 <;>
      (rw [Option.some.injEq] at hr; subst hr; subst_vars; dsimp only; omega)

/-! ## C6: generation selection with index fallback -/

/-- The positive-generation branch of the selection, as one equation. -/
lemma selectResults_pos (cache : List PokemonDoc) (g : Int) (hg : 0 < g) :
    selectResults cache (some g) =
      (if (cache.filter (fun p => (p.generation : Int) = g)).isEmpty then
        (match GEN_RANGES g with
         | some r => cache.filter (fun p => r.start ≤ p.pokemonId ∧ p.pokemonId ≤ r.stop)
         | none => [])
      else cache.filter (fun p => (p.generation : Int) = g)) := by
  simp only [selectResults, if_pos hg]

/-- **C6.** With no valid positive generation the `list` query scans the full
cache; with a positive generation `g` it selects by the generation index, and
exactly when that selection is empty it instead selects by the static
`GEN_RANGES` id range (the empty set when `g` has no table entry). -/
theorem list_generation_selection (cache : List PokemonDoc) (g : Int) :
    selectResults cache none = cache
    ∧ (g ≤ 0 → selectResults cache (some g) = cache)
    ∧ (0 < g → ∀ p : PokemonDoc,
        p ∈ selectResults cache (some g) ↔
          p ∈ cache ∧
            ((p.generation : Int) = g ∨
              ((∀ q ∈ cache, (q.generation : Int) ≠ g) ∧
                ∃ r : GenRange, GEN_RANGES g = some r ∧
                  r.start ≤ p.pokemonId ∧ p.pokemonId ≤ r.stop))) := by
  refine ⟨rfl, ?_, ?_⟩
  · intro hg
    simp only [selectResults]
    rw [if_neg (by omega)]
  · intro hg p
    rw [selectResults_pos cache g hg]
    by_cases hall : ∀ q ∈ cache, (q.generation : Int) ≠ g
    · have hfil : cache.filter (fun p => (p.generation : Int) = g) = [] := by
        simp only [List.filter_eq_nil_iff]
        intro q hq
        simpa using hall q hq
      rw [if_pos (by simp [hfil])]
      cases hR : GEN_RANGES g with
      | none =>
        simp only [List.not_mem_nil, false_iff]
        rintro ⟨hp, hgen | ⟨-, r, hr, -⟩⟩
        · exact hall p hp hgen
        · exact Option.noConfusion hr
      | some r =>
        simp only [List.mem_filter, decide_eq_true_eq]
        constructor
        · rintro ⟨hp, h1, h2⟩
          exact ⟨hp, Or.inr ⟨hall, r, rfl, h1, h2⟩⟩
        · rintro ⟨hp, hgen | ⟨-, r', hr', h1, h2⟩⟩
          · exact absurd hgen (hall p hp)
          · rw [Option.some.injEq] at hr'
            subst hr'
            exact ⟨hp, h1, h2⟩
    · push_neg at hall
      obtain ⟨q, hq, hqg⟩ := hall
      have hne : ¬ (cache.filter (fun p => (p.generation : Int) = g)).isEmpty = true := by
        simp only [List.isEmpty_iff]
        intro hfil
        have : q ∈ cache.filter (fun p => (p.generation : Int) = g) :=
          List.mem_filter.mpr ⟨hq, by simpa using hqg⟩
        rw [hfil] at this
        simp at this
      rw [if_neg hne]
      simp only [List.mem_filter, decide_eq_true_eq]
      constructor
      · rintro ⟨hp, hgen⟩
        exact ⟨hp, Or.inl hgen⟩
      · rintro ⟨hp, hgen | ⟨habs, -⟩⟩
        · exact ⟨hp, hgen⟩
        · exact absurd hqg (habs q hq)

/-! ## C10: falsy-coerced pagination defaults -/

/-- **C10.** In the `list` query a supplied limit of `0` is treated exactly
like an omitted limit — `args.limit || 20` coerces the falsy `0` to the
default `20` — and an offset of `0` like an omitted offset; hence `list`
with limit `0` behaves as with limit `20`: the page holds up to 20 records
(and is only empty when the offset already reaches past the filtered total),
with `total` and `hasMore` computed from the effective limit 20. -/
theorem list_zero_limit_uses_default (cache : List PokemonDoc)
    (search : Option String) (types : Option (List String)) (generation : Option Int)
    (limitArg offsetArg : Option Nat) :
    list cache (some 0) offsetArg search types generation
        = list cache none offsetArg search types generation
    ∧ list cache (some 0) offsetArg search types generation
        = list cache (some 20) offsetArg search types generation
    ∧ list cache limitArg (some 0) search types generation
        = list cache limitArg none search types generation
    ∧ (list cache (some 0) offsetArg search types generation).pokemon.length ≤ 20
    ∧ (effOffset offsetArg < (list cache (some 0) offsetArg search types generation).total →
        (list cache (some 0) offsetArg search types generation).pokemon ≠ []) := by
  refine ⟨rfl, rfl, rfl, ?_, ?_⟩
  · simp only [list, effLimit]
    simpa using List.length_take_le 20 _
  · intro h
    simp only [list, effLimit] at h ⊢
    rw [← List.length_pos]
    simp only [List.length_take, List.length_drop, Nat.lt_min, if_true]
    omega

/-! ## C8: getFavorites joins against the cache, dropping stale favorites -/

/-- **C8.** `getFavorites` returns the empty list when no authenticated user
is resolved; otherwise a record is returned exactly when it is the first
cached document for the id of one of the user's favorites — so every
returned record is cached (no null entries), and a favorite whose id has no
cached record contributes nothing. -/
theorem getFavorites_spec (cache : List PokemonDoc) (favs : List Fav) (u : Nat) :
    getFavorites cache favs none = []
    ∧ (∀ p : PokemonDoc,
        p ∈ getFavorites cache favs (some u) ↔
          ∃ f : Fav, f ∈ favs ∧ f.userId = u ∧
            (cache.filter (fun q => q.pokemonId = f.pokemonId)).head? = some p)
    ∧ (∀ p ∈ getFavorites cache favs (some u),
        p ∈ cache ∧ ∃ f : Fav, f ∈ favs ∧ f.userId = u ∧ f.pokemonId = p.pokemonId)
    ∧ (∀ f ∈ favs, f.userId = u → (∀ q ∈ cache, q.pokemonId ≠ f.pokemonId) →
        ∀ p ∈ getFavorites cache favs (some u), p.pokemonId ≠ f.pokemonId) := by
  have hmem : ∀ p : PokemonDoc,
      p ∈ getFavorites cache favs (some u) ↔
        ∃ f : Fav, f ∈ favs ∧ f.userId = u ∧
          (cache.filter (fun q => q.pokemonId = f.pokemonId)).head? = some p := by
    intro p
    simp only [getFavorites, List.filterMap_map, List.mem_filterMap, List.mem_filter,
      Function.comp, decide_eq_true_eq, Option.mem_def, id_eq]
    constructor
    · rintro ⟨f, ⟨hf, hfu⟩, hh⟩
      exact ⟨f, hf, hfu, hh⟩
    · rintro ⟨f, hf, hfu, hh⟩
      exact ⟨f, ⟨hf, hfu⟩, hh⟩
  have hfirst : ∀ (f : Fav) (p : PokemonDoc),
      (cache.filter (fun q => q.pokemonId = f.pokemonId)).head? = some p →
      p ∈ cache ∧ p.pokemonId = f.pokemonId := by
    intro f p hh
    have hp : p ∈ cache.filter (fun q => q.pokemonId = f.pokemonId) :=
      List.mem_of_mem_head? (by rw [hh]; rfl)
    have := List.mem_filter.mp hp
    exact ⟨this.1, by simpa using this.2⟩
  refine ⟨rfl, hmem, ?_, ?_⟩
  · intro p hp
    obtain ⟨f, hf, hfu, hh⟩ := (hmem p).mp hp
    obtain ⟨hpc, hpid⟩ := hfirst f p hh
    exact ⟨hpc, f, hf, hfu, hpid.symm⟩
  · intro f hf hfu habs p hp hpid
    obtain ⟨f', hf', hfu', hh'⟩ := (hmem p).mp hp
    obtain ⟨hpc, -⟩ := hfirst f' p hh'
    exact habs p hpc hpid

/-! ## C4: type-table refresh upserts -/

/-- Decomposition of the type table around the first document with a given
name, together with the effect of `patchFirstTypeColor` there. -/
lemma typeTable_first_match (l : List TypeDoc) (n c : String) (t0 : TypeDoc)
    (h : (l.filter (fun t => t.name = n)).head? = some t0) :
    ∃ l1 l2, l = l1 ++ t0 :: l2 ∧ (∀ u ∈ l1, u.name ≠ n) ∧ t0.name = n ∧
      patchFirstTypeColor n c l = l1 ++ { t0 with color := c } :: l2 := by
  induction l with
  | nil => simp at h
  | cons a as ih =>
    by_cases ha : a.name = n
    · have h0 : a = t0 := by
        have : (a :: as.filter (fun t => t.name = n)).head? = some t0 := by
          simpa [List.filter_cons, ha] using h
        simpa using this
      subst h0
      refine ⟨[], as, by simp, by simp, ha, ?_⟩
      simp [patchFirstTypeColor, ha]
    · have h' : (as.filter (fun t => t.name = n)).head? = some t0 := by
        simpa [List.filter_cons, ha] using h
      obtain ⟨l1, l2, heq, hnone, hname, hpatch⟩ := ih h'
      refine ⟨a :: l1, l2, by simp [heq], ?_, hname, ?_⟩
      · intro u hu
        rcases List.mem_cons.mp hu with rfl | hu
        · exact ha
        · exact hnone u hu
      · simp [patchFirstTypeColor, ha, hpatch]

/-- **C4.** One step of the type-table refresh (`cacheType` invoked with the
locally defined color for the name, or the fallback `"#68A090"`): when no
document with the normalized name exists a new `{name, color}` document is
appended; when one exists, the first matching document is patched in place to
the supplied color (a no-op write when it already matches) and the table
keeps its length — no second document is ever created for a present name.
Only the type table is touched. -/
theorem cacheType_refresh_upsert (s : CacheState) (name : String) :
    (cacheType s name (typeColorFor name)).pokemon = s.pokemon
    ∧ (cacheType s name (typeColorFor name)).species = s.species
    ∧ ((∀ t ∈ s.types, t.name ≠ normTypeName name) →
        (cacheType s name (typeColorFor name)).types
          = s.types ++ [⟨normTypeName name, typeColorFor name⟩])
    ∧ ((∃ t ∈ s.types, t.name = normTypeName name) →
        (cacheType s name (typeColorFor name)).types.length = s.types.length
        ∧ ∃ l1 t0 l2, s.types = l1 ++ t0 :: l2
            ∧ (∀ u ∈ l1, u.name ≠ normTypeName name)
            ∧ t0.name = normTypeName name
            ∧ (cacheType s name (typeColorFor name)).types
                = l1 ++ ⟨normTypeName name, typeColorFor name⟩ :: l2) := by
  cases hh : (s.types.filter (fun t => t.name = normTypeName name)).head? with
  | none =>
    have hct : cacheType s name (typeColorFor name)
        = { s with types := s.types ++ [⟨normTypeName name, typeColorFor name⟩] } := by
      simp only [cacheType]
      rw [hh]
    have hfil : s.types.filter (fun t => t.name = normTypeName name) = [] := by
      simpa [List.head?_eq_none_iff] using hh
    have habs : ∀ t ∈ s.types, t.name ≠ normTypeName name := by
      intro t ht
      have := List.filter_eq_nil_iff.mp hfil t ht
      simpa using this
    refine ⟨by rw [hct], by rw [hct], fun _ => by rw [hct], fun hex => ?_⟩
    obtain ⟨t, ht, htn⟩ := hex
    exact absurd htn (habs t ht)
  | some t0 =>
    obtain ⟨l1, l2, heq, hnone, hname, hpatch⟩ :=
      typeTable_first_match s.types (normTypeName name) (typeColorFor name) t0 hh
    have ht0 : ({ t0 with color := typeColorFor name } : TypeDoc)
        = ⟨normTypeName name, typeColorFor name⟩ := by
      cases t0
      simp_all
    have htypes : (cacheType s name (typeColorFor name)).types
        = l1 ++ ⟨normTypeName name, typeColorFor name⟩ :: l2 := by
      by_cases hc : t0.color = typeColorFor name
      · have hct : cacheType s name (typeColorFor name) = s := by
          simp only [cacheType]
          rw [hh]
          simp [hc]
        rw [hct, heq, ← ht0, ← hc]
      · have hct : cacheType s name (typeColorFor name)
            = { s with types := patchFirstTypeColor (normTypeName name) (typeColorFor name) s.types } := by
          simp only [cacheType]
          rw [hh]
          simp [hc]
        rw [hct, ← ht0]
        exact hpatch
    have hpk : (cacheType s name (typeColorFor name)).pokemon = s.pokemon := by
      simp only [cacheType]
      rw [hh]
      split
      · rfl
      · split <;> rfl
    have hsp : (cacheType s name (typeColorFor name)).species = s.species := by
      simp only [cacheType]
      rw [hh]
      split
      · rfl
      · split <;> rfl
    refine ⟨hpk, hsp, fun habs => ?_, fun _ => ?_⟩
    · have ht0mem : t0 ∈ s.types := by
        rw [heq]
        simp
      exact absurd hname (habs t0 ht0mem)
    · refine ⟨?_, l1, t0, l2, heq, hnone, hname, htypes⟩
      rw [htypes, heq]
      simp

/-! ## C7: favorites mutations -/

/-- `favMatches` recognizes exactly the pair document. -/
lemma favMatches_iff (u pid : Nat) (f : Fav) :
    favMatches u pid f = true ↔ f = ⟨u, pid⟩ := by
  cases f
  simp [favMatches, Fav.mk.injEq]

/-- A duplicate-free list whose elements all equal `v` is `[]` or `[v]`. -/
lemma nodup_all_eq {α : Type} (l : List α) (v : α) (hn : l.Nodup)
    (he : ∀ x ∈ l, x = v) : l = [] ∨ l = [v] := by
  cases l with
  | nil => exact Or.inl rfl
  | cons a as =>
    right
    have ha : a = v := he a (by simp)
    cases as with
    | nil => simp [ha]
    | cons b bs =>
      exfalso
      have hb : b = v := he b (by simp)
      have : a ∉ b :: bs := (List.nodup_cons.mp hn).1
      exact this (by simp [ha, hb])

/-- Under the per-pair uniqueness invariant, the `(user, pokemonId)` index
query returns `[]` or exactly the pair document. -/
lemma filter_pair_cases (favs : List Fav) (u pid : Nat) (h : favs.Nodup) :
    (favs.filter (favMatches u pid) = [] ∧ (⟨u, pid⟩ : Fav) ∉ favs)
    ∨ (favs.filter (favMatches u pid) = [(⟨u, pid⟩ : Fav)] ∧ (⟨u, pid⟩ : Fav) ∈ favs) := by
  have hnd : (favs.filter (favMatches u pid)).Nodup := (List.filter_sublist favs).nodup h
  have hall : ∀ x ∈ favs.filter (favMatches u pid), x = ⟨u, pid⟩ := fun x hx =>
    (favMatches_iff u pid x).mp (List.of_mem_filter hx)
  rcases nodup_all_eq _ _ hnd hall with hnil | hone
  · refine Or.inl ⟨hnil, fun hmem => ?_⟩
    have : (⟨u, pid⟩ : Fav) ∈ favs.filter (favMatches u pid) :=
      List.mem_filter.mpr ⟨hmem, (favMatches_iff u pid _).mpr rfl⟩
    rw [hnil] at this
    simp at this
  · refine Or.inr ⟨hone, ?_⟩
    have : (⟨u, pid⟩ : Fav) ∈ favs.filter (favMatches u pid) := by
      rw [hone]
      simp
    exact List.mem_of_mem_filter this

/-- Deleting the found favorite removes exactly the pair document. -/
lemma removeFirstFav_mem (favs : List Fav) (u pid : Nat) (h : favs.Nodup) :
    ∀ f : Fav, f ∈ removeFirstFav u pid favs ↔ (f ∈ favs ∧ f ≠ ⟨u, pid⟩) := by
  induction favs with
  | nil => simp [removeFirstFav]
  | cons a as ih =>
    intro f
    obtain ⟨hna, hnd⟩ := List.nodup_cons.mp h
    by_cases ha : favMatches u pid a = true
    · have hav : a = ⟨u, pid⟩ := (favMatches_iff u pid a).mp ha
      subst hav
      simp only [removeFirstFav, if_pos ha]
      constructor
      · intro hf
        exact ⟨List.mem_cons_of_mem _ hf, fun he => hna (he ▸ hf)⟩
      · rintro ⟨hf, hne⟩
        rcases List.mem_cons.mp hf with rfl | hf
        · exact absurd rfl hne
        · exact hf
    · have hav : a ≠ (⟨u, pid⟩ : Fav) := fun he => ha ((favMatches_iff u pid a).mpr he)
      simp only [removeFirstFav, if_neg ha]
      rw [List.mem_cons, ih hnd f, List.mem_cons]
      constructor
      · rintro (rfl | ⟨hf, hne⟩)
        · exact ⟨Or.inl rfl, hav⟩
        · exact ⟨Or.inr hf, hne⟩
      · rintro ⟨rfl | hf, hne⟩
        · exact Or.inl rfl
        · exact Or.inr ⟨hf, hne⟩

/-- Deleting a favorite yields a sublist of the table. -/
lemma removeFirstFav_sublist (favs : List Fav) (u pid : Nat) :
    (removeFirstFav u pid favs).Sublist favs := by
  induction favs with
  | nil => simp [removeFirstFav]
  | cons a as ih =>
    by_cases ha : favMatches u pid a = true
    · simp only [removeFirstFav, if_pos ha]
      exact (List.sublist_cons_self a as)
    · simp only [removeFirstFav, if_neg ha]
      exact ih.cons₂ a

/-- `addToFavorites`, closed form under the uniqueness invariant. -/
lemma addToFavorites_eq (favs : List Fav) (u pid : Nat) (h : favs.Nodup) :
    addToFavorites favs (some u) pid =
      if (⟨u, pid⟩ : Fav) ∈ favs then .error "Pokemon already in favorites"
      else .ok (favs ++ [⟨u, pid⟩]) := by
  rcases filter_pair_cases favs u pid h with ⟨hfil, hnot⟩ | ⟨hfil, hmem⟩
  · rw [if_neg hnot]
    simp [addToFavorites, hfil, uniqueQuery]
  · rw [if_pos hmem]
    simp [addToFavorites, hfil, uniqueQuery]

/-- `removeFromFavorites`, closed form under the uniqueness invariant. -/
lemma removeFromFavorites_eq (favs : List Fav) (u pid : Nat) (h : favs.Nodup) :
    removeFromFavorites favs (some u) pid =
      if (⟨u, pid⟩ : Fav) ∈ favs then .ok (removeFirstFav u pid favs)
      else .error "Pokemon not in favorites" := by
  rcases filter_pair_cases favs u pid h with ⟨hfil, hnot⟩ | ⟨hfil, hmem⟩
  · rw [if_neg hnot]
    simp [removeFromFavorites, hfil, uniqueQuery]
  · rw [if_pos hmem]
    simp [removeFromFavorites, hfil, uniqueQuery]

/-- **C7.** For an authenticated user, under the per-pair uniqueness
invariant: `addToFavorites` errors exactly when the `(user, pokemonId)` pair
already exists and otherwise appends exactly that pair; `removeFromFavorites`
reports the not-found error exactly when the pair is absent and otherwise
deletes exactly that pair; with no authenticated user both mutations throw
without touching the table; and a second add after a successful add, or a
second remove after a successful remove, fails. -/
theorem favorites_mutations_spec (favs : List Fav) (u pid : Nat) (h : favs.Nodup) :
    (addToFavorites favs (some u) pid = .error "Pokemon already in favorites"
        ↔ (⟨u, pid⟩ : Fav) ∈ favs)
    ∧ ((⟨u, pid⟩ : Fav) ∉ favs →
        addToFavorites favs (some u) pid = .ok (favs ++ [⟨u, pid⟩]))
    ∧ (removeFromFavorites favs (some u) pid = .error "Pokemon not in favorites"
        ↔ (⟨u, pid⟩ : Fav) ∉ favs)
    ∧ ((⟨u, pid⟩ : Fav) ∈ favs →
        removeFromFavorites favs (some u) pid = .ok (removeFirstFav u pid favs)
        ∧ ∀ f : Fav, f ∈ removeFirstFav u pid favs ↔ (f ∈ favs ∧ f ≠ ⟨u, pid⟩))
    ∧ addToFavorites favs none pid = .error "Must be authenticated to add favorites"
    ∧ removeFromFavorites favs none pid = .error "Must be authenticated to remove favorites"
    ∧ (∀ favs₂ : List Fav, addToFavorites favs (some u) pid = .ok favs₂ →
        addToFavorites favs₂ (some u) pid = .error "Pokemon already in favorites")
    ∧ (∀ favs₂ : List Fav, removeFromFavorites favs (some u) pid = .ok favs₂ →
        removeFromFavorites favs₂ (some u) pid = .error "Pokemon not in favorites") := by
  refine ⟨?_, ?_, ?_, ?_, rfl, rfl, ?_, ?_⟩
  · rw [addToFavorites_eq favs u pid h]
    constructor
    · intro he
      by_contra hnot
      rw [if_neg hnot] at he
      exact Except.noConfusion he
    · intro hmem
      rw [if_pos hmem]
  · intro hnot
    rw [addToFavorites_eq favs u pid h, if_neg hnot]
  · rw [removeFromFavorites_eq favs u pid h]
    constructor
    · intro he
      intro hmem
      rw [if_pos hmem] at he
      exact Except.noConfusion he
    · intro hnot
      rw [if_neg hnot]
  · intro hmem
    rw [removeFromFavorites_eq favs u pid h, if_pos hmem]
    exact ⟨rfl, removeFirstFav_mem favs u pid h⟩
  · intro favs₂ hok
    rw [addToFavorites_eq favs u pid h] at hok
    by_cases hmem : (⟨u, pid⟩ : Fav) ∈ favs
    · rw [if_pos hmem] at hok
      exact Except.noConfusion hok
    · rw [if_neg hmem] at hok
      injection hok with hfv
      subst hfv
      have hnd₂ : (favs ++ [(⟨u, pid⟩ : Fav)]).Nodup := by
        rw [List.nodup_append]
        exact ⟨h, List.nodup_singleton _, by simpa [List.disjoint_singleton] using hmem⟩
      rw [addToFavorites_eq _ u pid hnd₂, if_pos (by simp)]
  · intro favs₂ hok
    rw [removeFromFavorites_eq favs u pid h] at hok
    by_cases hmem : (⟨u, pid⟩ : Fav) ∈ favs
    · rw [if_pos hmem] at hok
      injection hok with hfv
      subst hfv
      have hnd₂ : (removeFirstFav u pid favs).Nodup :=
        (removeFirstFav_sublist favs u pid).nodup h
      rw [removeFromFavorites_eq _ u pid hnd₂, if_neg ?_]
      intro habs
      exact ((removeFirstFav_mem favs u pid h _).mp habs).2 rfl
    · rw [if_neg hmem] at hok
      exact Except.noConfusion hok

/-- Witness for C7 at a concrete store: one favorite `(user 0, id 25)`,
whose re-add errors. -/
theorem favorites_mutations_spec_witness :
    ([(⟨0, 25⟩ : Fav)] : List Fav).Nodup ∧
    (addToFavorites [(⟨0, 25⟩ : Fav)] (some 0) 25 = .error "Pokemon already in favorites" ↔
      (⟨0, 25⟩ : Fav) ∈ ([(⟨0, 25⟩ : Fav)] : List Fav)) :=
  ⟨by decide, (favorites_mutations_spec [⟨0, 25⟩] 0 25 (by decide)).1⟩

/-! ## C5: the search filter -/

/-- `isPrefixB` decides list prefixing. -/
lemma isPrefixB_iff (n h : List Char) : isPrefixB n h = true ↔ n <+: h := by
  induction n generalizing h with
  | nil => simp [isPrefixB]
  | cons a as ih =>
    cases h with
    | nil => simp [isPrefixB]
    | cons b bs =>
      simp [isPrefixB, List.cons_prefix_cons, ih, Bool.and_eq_true, decide_eq_true_eq]

/-- `isInfixB` decides contiguous containment. -/
lemma isInfixB_iff (n h : List Char) : isInfixB n h = true ↔ n <:+: h := by
  induction h with
  | nil =>
    cases n with
    | nil => simp [isInfixB, isPrefixB]
    | cons a as => simp [isInfixB, isPrefixB]
  | cons b bs ih =>
    simp [isInfixB, Bool.or_eq_true, isPrefixB_iff, ih, List.infix_cons_iff]

/-- Every decimal digit character is a digit. -/
lemma digitToChar_mem (d : Nat) : digitToChar d ∈ digitCharsList := by
  unfold digitToChar
  split_ifs <;> simp [digitCharsList]

/-- The decimal rendering consists of digit characters only. -/
lemma decimalDigitsGo_digits (fuel n : Nat) :
    ∀ c ∈ decimalDigitsGo fuel n, c ∈ digitCharsList := by
  induction fuel generalizing n with
  | zero => simp [decimalDigitsGo]
  | succ fuel ih =>
    intro c hc
    simp only [decimalDigitsGo] at hc
    by_cases hn : n < 10
    · rw [if_pos hn] at hc
      simp only [List.mem_singleton] at hc
      subst hc
      exact digitToChar_mem n
    · rw [if_neg hn] at hc
      rcases List.mem_append.mp hc with h | h
      · exact ih (n / 10) c h
      · simp only [List.mem_singleton] at h
        subst h
        exact digitToChar_mem (n % 10)

/-- Lowercasing either fixes a character or yields a lowercase letter. -/
lemma charToLower_eq_or (c : Char) :
    charToLower c = c ∨ charToLower c ∈ lowerLetters := by
  unfold charToLower
  split
  all_goals first
    | exact Or.inl rfl
    | exact Or.inr (by decide)

/-- Lowercasing fixes digit characters. -/
lemma charToLower_of_digit (c : Char) (h : c ∈ digitCharsList) : charToLower c = c := by
  fin_cases h <;> rfl

/-- If the lowercased character is a digit, lowercasing was the identity. -/
lemma charToLower_digit_fix (c : Char) (h : charToLower c ∈ digitCharsList) :
    charToLower c = c := by
  rcases charToLower_eq_or c with he | hm
  · exact he
  · exfalso
    have hdisj : ∀ x ∈ lowerLetters, x ∉ digitCharsList := by decide
    exact hdisj _ hm h

/-- Against a digits-only haystack, lowercasing the needle does not change
containment. -/
lemma lower_infix_digits (needle hay : List Char) (hd : ∀ c ∈ hay, c ∈ digitCharsList) :
    (needle.map charToLower <:+: hay) ↔ (needle <:+: hay) := by
  have hmap : (∀ c ∈ needle, charToLower c = c) → needle.map charToLower = needle := by
    intro hfix
    rw [List.map_congr_left hfix]
    exact List.map_id' needle
  constructor
  · intro hinf
    have hfix : ∀ c ∈ needle, charToLower c = c := fun c hc =>
      charToLower_digit_fix c (hd _ (hinf.subset (List.mem_map_of_mem _ hc)))
    rwa [hmap hfix] at hinf
  · intro hinf
    have hfix : ∀ c ∈ needle, charToLower c = c := fun c hc =>
      charToLower_of_digit c (hd c (hinf.subset hc))
    rwa [hmap hfix]

/-- `id.toString().includes(searchLower) = id.toString().includes(search)`:
against a decimal id string, lowercasing the query is invisible. -/
lemma jsIncludes_decimal_lower (n : Nat) (s : String) :
    jsIncludes (decimalStr n) (lowerStr s) = jsIncludes (decimalStr n) s := by
  have hd : ∀ c ∈ (decimalStr n).data, c ∈ digitCharsList := fun c hc =>
    decimalDigitsGo_digits (n + 1) n c hc
  rw [Bool.eq_iff_iff]
  simp only [jsIncludes]
  rw [isInfixB_iff, isInfixB_iff]
  exact lower_infix_digits s.data (decimalStr n).data hd

/-- **C5.** For every cache and non-empty search string, the `list` pipeline
keeps exactly the records whose lowercased name contains the lowercased
query, or whose id rendered as a decimal string contains the query (the code
compares the id string against the lowercased query, which is equivalent on
decimal strings); e.g. searching `"25"` keeps ids 25 and 125 via their id
strings regardless of name. -/
theorem list_search_filter (cache : List PokemonDoc) (s : String) (hs : s ≠ "") :
    ∀ p : PokemonDoc,
      p ∈ filteredSorted cache (some s) none none ↔
        (p ∈ filteredSorted cache none none none ∧
          (jsIncludes (lowerStr p.name) (lowerStr s) = true
            ∨ jsIncludes (decimalStr p.pokemonId) s = true)) := by
  intro p
  simp only [filteredSorted, typeFilter, selectResults, searchFilter]
  rw [if_neg hs]
  simp only [sortById, List.mem_insertionSort, List.mem_filter]
  rw [Bool.or_eq_true, jsIncludes_decimal_lower]

/-- Witness for C5: with cache ids 25 and 125 and the query `"25"`, the
record with id 125 is kept by its id string. -/
theorem list_search_filter_witness :
    ("25" : String) ≠ "" ∧
    (samplePokemon 125 ∈ filteredSorted [samplePokemon 25, samplePokemon 125] (some "25") none none ↔
      (samplePokemon 125 ∈ filteredSorted [samplePokemon 25, samplePokemon 125] none none none ∧
        (jsIncludes (lowerStr (samplePokemon 125).name) (lowerStr "25") = true
          ∨ jsIncludes (decimalStr (samplePokemon 125).pokemonId) "25" = true))) :=
  ⟨by decide, list_search_filter [samplePokemon 25, samplePokemon 125] "25" (by decide)
    (samplePokemon 125)⟩

/-! ## C1: unfiltered pagination -/

/-- The de-duplication keeps ids unique (and avoids the already-seen set). -/
lemma dedupGo_ids (seen : List Nat) (l : List PokemonDoc) :
    ((dedupGo seen l).map (fun p => p.pokemonId)).Nodup
    ∧ ∀ i ∈ (dedupGo seen l).map (fun p => p.pokemonId), i ∉ seen := by
  induction l generalizing seen with
  | nil => simp [dedupGo]
  | cons p ps ih =>
    by_cases hp : p.pokemonId ∈ seen
    · simp only [dedupGo, if_pos hp]
      exact ih seen
    · simp only [dedupGo, if_neg hp]
      obtain ⟨hnd, hnin⟩ := ih (p.pokemonId :: seen)
      refine ⟨?_, ?_⟩
      · simp only [List.map_cons, List.nodup_cons]
        exact ⟨fun hmem => (hnin _ hmem) (by simp), hnd⟩
      · intro i hi
        simp only [List.map_cons, List.mem_cons] at hi
        rcases hi with rfl | hi
        · exact hp
        · intro hiseen
          exact (hnin i hi) (by simp [hiseen])

/-- After de-duplication the ids are pairwise distinct. -/
lemma dedupById_ids_nodup (l : List PokemonDoc) :
    ((dedupById l).map (fun p => p.pokemonId)).Nodup :=
  (dedupGo_ids [] l).1

/-- **C1 (amended: for a supplied limit ≥ 1; a limit of 0 selects the
default 20, see C10).** With no search/type/generation filter, `list` pages
over the de-duplicated cache sorted strictly ascending by id: the page is the
slice `[offset, offset+limit)` of that sorted sequence, `total` is the full
de-duplicated cache size, and `hasMore` holds exactly when
`offset + limit < total`. -/
theorem list_noFilter_pagination (cache : List PokemonDoc) (limit offset : Nat)
    (h : 1 ≤ limit) :
    ∃ sorted : List PokemonDoc,
      sorted.Perm (dedupById cache)
      ∧ ((sorted.map (fun p => p.pokemonId)).Pairwise (· < ·))
      ∧ (list cache (some limit) (some offset) none none none).pokemon
          = (sorted.drop offset).take limit
      ∧ (list cache (some limit) (some offset) none none none).total
          = (dedupById cache).length
      ∧ ((list cache (some limit) (some offset) none none none).hasMore = true
          ↔ offset + limit < (dedupById cache).length) := by
  have hlim : effLimit (some limit) = limit := by
    simp only [effLimit]
    rw [if_neg (by omega)]
  have hfs : filteredSorted cache none none none = sortById (dedupById cache) := rfl
  have hlen : (sortById (dedupById cache)).length = (dedupById cache).length :=
    (List.perm_insertionSort idLe (dedupById cache)).length_eq
  refine ⟨sortById (dedupById cache), List.perm_insertionSort idLe _, ?_, ?_, ?_, ?_⟩
  · have hsorted : (sortById (dedupById cache)).Pairwise idLe :=
      List.sorted_insertionSort idLe (dedupById cache)
    have hnd : ((sortById (dedupById cache)).map (fun p => p.pokemonId)).Nodup :=
      (((List.perm_insertionSort idLe (dedupById cache)).map
        (fun p => p.pokemonId)).nodup_iff).mpr (dedupById_ids_nodup cache)
    have hle : ((sortById (dedupById cache)).map (fun p => p.pokemonId)).Pairwise (· ≤ ·) :=
      List.pairwise_map.mpr hsorted
    exact (hle.and hnd).imp (fun hab => Nat.lt_of_le_of_ne hab.1 hab.2)
  · simp only [list, hfs, hlim, effOffset]
  · simp only [list, hfs, hlen]
  · simp only [list, hfs, hlim, effOffset, hlen, decide_eq_true_eq]

/-- Counterexample to C1 as stated for every limit/offset: with one cached
record and supplied limit 0 and offset 0, the page is not the (empty) slice
`[0, 0)`, and `hasMore` is false although `0 + 0 < total`. -/
theorem list_noFilter_pagination_cex :
    ¬ ((list [samplePokemon 1] (some 0) (some 0) none none none).pokemon
        = ((sortById (dedupById [samplePokemon 1])).drop 0).take 0)
    ∧ (list [samplePokemon 1] (some 0) (some 0) none none none).hasMore = false
    ∧ 0 + 0 < (list [samplePokemon 1] (some 0) (some 0) none none none).total := by
  refine ⟨by decide, by decide, by decide⟩

/-- Witness for C1 (amended) at one cached record, limit 1, offset 0. -/
theorem list_noFilter_pagination_witness :
    (1 : Nat) ≤ 1 ∧
    ∃ sorted : List PokemonDoc,
      sorted.Perm (dedupById [samplePokemon 1])
      ∧ ((sorted.map (fun p => p.pokemonId)).Pairwise (· < ·))
      ∧ (list [samplePokemon 1] (some 1) (some 0) none none none).pokemon
          = (sorted.drop 0).take 1
      ∧ (list [samplePokemon 1] (some 1) (some 0) none none none).total
          = (dedupById [samplePokemon 1]).length
      ∧ ((list [samplePokemon 1] (some 1) (some 0) none none none).hasMore = true
          ↔ 0 + 1 < (dedupById [samplePokemon 1]).length) :=
  ⟨Nat.le_refl 1, list_noFilter_pagination [samplePokemon 1] 1 0 (Nat.le_refl 1)⟩

/-! ## C2/C3: the catalog Fetcher -/

/-- Replacing the first key match by a document with the same key leaves the
key sequence unchanged. -/
lemma replaceFirstBy_map_key {α : Type} (key : α → Nat) (l : List α) (id : Nat) (doc : α)
    (hdoc : key doc = id) :
    (replaceFirstBy (fun x => key x = id) doc l).map key = l.map key := by
  induction l with
  | nil => rfl
  | cons x xs ih =>
    by_cases hx : key x = id
    · simp [replaceFirstBy, hx, hdoc]
    · simp [replaceFirstBy, hx, ih]

/-- The id sequence of the `pokemon` table after `cachePokemon`: unchanged on
a patch, extended by the payload id on an insert. -/
lemma cachePokemon_pokemon_map (s : CacheState) (pd : RawPokemon) (sd : RawSpecies) :
    (cachePokemon s pd sd).pokemon.map (fun p => p.pokemonId)
      = (if s.pokemon.any (fun p => p.pokemonId = pd.id)
         then s.pokemon.map (fun p => p.pokemonId)
         else s.pokemon.map (fun p => p.pokemonId) ++ [pd.id]) := by
  simp only [cachePokemon]
  by_cases hany : s.pokemon.any (fun p => p.pokemonId = pd.id) = true
  · rw [if_pos hany, if_pos hany]
    split
    · exact replaceFirstBy_map_key (fun p => p.pokemonId) s.pokemon pd.id
        (buildPokemonDoc pd) rfl
    · exact replaceFirstBy_map_key (fun p => p.pokemonId) s.pokemon pd.id
        (buildPokemonDoc pd) rfl
  · rw [if_neg hany, if_neg hany]
    split
    · simp [buildPokemonDoc]
    · simp [buildPokemonDoc]

/-- The id sequence of the `pokemonSpecies` table after `cachePokemon`. -/
lemma cachePokemon_species_map (s : CacheState) (pd : RawPokemon) (sd : RawSpecies) :
    (cachePokemon s pd sd).species.map (fun q => q.pokemonId)
      = (if s.species.any (fun q => q.pokemonId = pd.id)
         then s.species.map (fun q => q.pokemonId)
         else s.species.map (fun q => q.pokemonId) ++ [pd.id]) := by
  simp only [cachePokemon]
  by_cases hany : s.pokemon.any (fun p => p.pokemonId = pd.id) = true
  all_goals
    first
    | rw [if_pos hany]
    | rw [if_neg hany]
  all_goals
    by_cases hsp : s.species.any (fun q => q.pokemonId = pd.id) = true
  all_goals
    first
    | (rw [if_pos hsp, if_pos hsp]
       exact replaceFirstBy_map_key (fun q => q.pokemonId) s.species pd.id
         (buildSpeciesDoc pd sd) rfl)
    | (rw [if_neg hsp, if_neg hsp]
       simp [buildSpeciesDoc])

/-- `pokemonCached` is membership of the id sequence. -/
lemma pokemonCached_iff (s : CacheState) (i : Nat) :
    pokemonCached s i = true ↔ i ∈ s.pokemon.map (fun p => p.pokemonId) := by
  simp only [pokemonCached, List.any_eq_true, List.mem_map, decide_eq_true_eq]

/-- `cachePokemon` preserves the per-id uniqueness invariant. -/
lemma cachePokemon_inv (s : CacheState) (pd : RawPokemon) (sd : RawSpecies)
    (h : cacheInv s) : cacheInv (cachePokemon s pd sd) := by
  obtain ⟨hp, hs⟩ := h
  constructor
  · rw [cachePokemon_pokemon_map]
    split
    · exact hp
    · next hany =>
      rw [List.nodup_append]
      refine ⟨hp, List.nodup_singleton _, ?_⟩
      intro i hi hi'
      simp only [List.mem_singleton] at hi'
      subst hi'
      obtain ⟨p, hpmem, hpid⟩ := List.mem_map.mp hi
      exact hany (List.any_eq_true.mpr ⟨p, hpmem, by simpa using hpid⟩)
  · rw [cachePokemon_species_map]
    split
    · exact hs
    · next hany =>
      rw [List.nodup_append]
      refine ⟨hs, List.nodup_singleton _, ?_⟩
      intro i hi hi'
      simp only [List.mem_singleton] at hi'
      subst hi'
      obtain ⟨q, hqmem, hqid⟩ := List.mem_map.mp hi
      exact hany (List.any_eq_true.mpr ⟨q, hqmem, by simpa using hqid⟩)

/-- `cachePokemon` never evicts a cached id. -/
lemma cachePokemon_cached_mono (s : CacheState) (pd : RawPokemon) (sd : RawSpecies)
    (i : Nat) (h : pokemonCached s i = true) :
    pokemonCached (cachePokemon s pd sd) i = true := by
  rw [pokemonCached_iff] at h ⊢
  rw [cachePokemon_pokemon_map]
  split
  · exact h
  · exact List.mem_append_left _ h

/-- One batch step preserves the invariant. -/
lemma processId_inv (w : World) (s : CacheState) (id : Nat) (h : cacheInv s) :
    cacheInv (processId w s id).1 := by
  unfold processId
  split
  · exact h
  · exact cachePokemon_inv s _ _ h

/-- One batch step never evicts a cached id. -/
lemma processId_cached_mono (w : World) (s : CacheState) (id i : Nat)
    (h : pokemonCached s i = true) : pokemonCached (processId w s id).1 i = true := by
  unfold processId
  split
  · exact h
  · exact cachePokemon_cached_mono s _ _ i h

/-- Processing a batch preserves the invariant. -/
lemma processAll_inv (w : World) (ids : List Nat) (s : CacheState) (h : cacheInv s) :
    cacheInv (processAll w ids s).1 := by
  induction ids generalizing s with
  | nil => exact h
  | cons id rest ih => exact ih _ (processId_inv w s id h)

/-- Ids cached before a batch are never fetched by it. -/
lemma processAll_skips (w : World) (ids : List Nat) (s : CacheState) (i : Nat)
    (h : pokemonCached s i = true) : i ∉ (processAll w ids s).2 := by
  induction ids generalizing s with
  | nil => simp [processAll]
  | cons id rest ih =>
    simp only [processAll, List.mem_append]
    rintro (hi | hi)
    · unfold processId at hi
      split at hi
      · simp at hi
      · next hnc =>
        simp only [Option.toList_some, List.mem_singleton] at hi
        subst hi
        exact hnc h
    · exact ih (processId w s id).1 (processId_cached_mono w s id i h) hi

/-- `cacheType` touches only the type table. -/
lemma cacheType_other_tables (s : CacheState) (n c : String) :
    (cacheType s n c).pokemon = s.pokemon ∧ (cacheType s n c).species = s.species := by
  simp only [cacheType]
  split
  · exact ⟨rfl, rfl⟩
  · split
    · exact ⟨rfl, rfl⟩
    · exact ⟨rfl, rfl⟩

/-- The type-table refresh touches only the type table. -/
lemma cacheTypesRun_other_tables (w : World) (s : CacheState) :
    (cacheTypesRun w s).pokemon = s.pokemon ∧ (cacheTypesRun w s).species = s.species := by
  unfold cacheTypesRun
  generalize w.typeNames = ts
  induction ts generalizing s with
  | nil => exact ⟨rfl, rfl⟩
  | cons t rest ih =>
    simp only [List.foldl_cons]
    obtain ⟨h1, h2⟩ := ih (cacheType s t (typeColorFor t))
    obtain ⟨g1, g2⟩ := cacheType_other_tables s t (typeColorFor t)
    exact ⟨h1.trans g1, h2.trans g2⟩

/-- The action's reported count is always the length of the target id list. -/
lemma fetchAndCachePokemon_cached (w : World) (s : CacheState)
    (limitArg offsetArg : Option Nat) :
    (fetchAndCachePokemon w s limitArg offsetArg).cached
      = (idsFor limitArg offsetArg).length := by
  simp only [fetchAndCachePokemon]
  split
  · next hi =>
    rw [List.isEmpty_iff.mp hi]
    rfl
  · rfl

/-- The action preserves the per-id uniqueness invariant. -/
lemma fetchAndCachePokemon_inv (w : World) (s : CacheState)
    (limitArg offsetArg : Option Nat) (h : cacheInv s) :
    cacheInv (fetchAndCachePokemon w s limitArg offsetArg).state := by
  simp only [fetchAndCachePokemon]
  split
  · exact h
  · apply processAll_inv
    obtain ⟨h1, h2⟩ := cacheTypesRun_other_tables w s
    exact ⟨h1 ▸ h.1, h2 ▸ h.2⟩

/-- The action never fetches an id that was already cached when it started. -/
lemma fetchAndCachePokemon_skips (w : World) (s : CacheState)
    (limitArg offsetArg : Option Nat) (i : Nat) (h : pokemonCached s i = true) :
    i ∉ (fetchAndCachePokemon w s limitArg offsetArg).fetchedIds := by
  simp only [fetchAndCachePokemon]
  split
  · simp
  · apply processAll_skips
    have := (cacheTypesRun_other_tables w s).1
    rw [pokemonCached_iff] at h ⊢
    rw [this]
    exact h

/-- Duplicate-free ids bound every per-id filter to at most one document. -/
lemma nodup_key_filter_le_one {α : Type} (key : α → Nat) (l : List α)
    (h : (l.map key).Nodup) (i : Nat) :
    (l.filter (fun x => key x = i)).length ≤ 1 := by
  induction l with
  | nil => simp
  | cons x xs ih =>
    rw [List.map_cons, List.nodup_cons] at h
    obtain ⟨hx, hxs⟩ := h
    by_cases hk : key x = i
    · have hfil : xs.filter (fun x => key x = i) = [] := by
        rw [List.filter_eq_nil_iff]
        intro y hy hky
        simp only [decide_eq_true_eq] at hky
        exact hx (List.mem_map.mpr ⟨y, hy, by rw [hky, hk]⟩)
      simp [List.filter_cons, hk, hfil]
    · simpa [List.filter_cons, hk] using ih hxs

/-- **C2.** Starting from a store satisfying the per-id uniqueness invariant
(e.g. the empty store), running the Fetcher twice — for any, in particular
overlapping, id ranges — leaves at most one cached Pokémon document and at
most one cached species document per id (a re-fetched id is patched in place,
never inserted twice); the second call still reports `cached` equal to the
number of requested ids, and it performs no upstream fetch for any id that
the first call left cached. -/
theorem fetcher_twice_no_duplicates (w : World) (s : CacheState)
    (l1 o1 l2 o2 : Option Nat) (h : cacheInv s) :
    cacheInv (fetchAndCachePokemon w (fetchAndCachePokemon w s l1 o1).state l2 o2).state
    ∧ (∀ i : Nat,
        ((fetchAndCachePokemon w (fetchAndCachePokemon w s l1 o1).state l2 o2).state.pokemon.filter
            (fun p => p.pokemonId = i)).length ≤ 1
        ∧ ((fetchAndCachePokemon w (fetchAndCachePokemon w s l1 o1).state l2 o2).state.species.filter
            (fun q => q.pokemonId = i)).length ≤ 1)
    ∧ (fetchAndCachePokemon w (fetchAndCachePokemon w s l1 o1).state l2 o2).cached
        = (idsFor l2 o2).length
    ∧ (∀ i : Nat, pokemonCached (fetchAndCachePokemon w s l1 o1).state i = true →
        i ∉ (fetchAndCachePokemon w (fetchAndCachePokemon w s l1 o1).state l2 o2).fetchedIds) := by
  have h1 : cacheInv (fetchAndCachePokemon w s l1 o1).state :=
    fetchAndCachePokemon_inv w s l1 o1 h
  have h2 : cacheInv (fetchAndCachePokemon w (fetchAndCachePokemon w s l1 o1).state l2 o2).state :=
    fetchAndCachePokemon_inv w _ l2 o2 h1
  refine ⟨h2, ?_, fetchAndCachePokemon_cached w _ l2 o2, ?_⟩
  · intro i
    exact ⟨nodup_key_filter_le_one (fun p : PokemonDoc => p.pokemonId) _ h2.1 i,
      nodup_key_filter_le_one (fun q : SpeciesDoc => q.pokemonId) _ h2.2 i⟩
  · intro i hi
    exact fetchAndCachePokemon_skips w _ l2 o2 i hi

/-- Witness for C2 at the empty store, ranges `[1,2]` then `[2,3]`
(overlapping at 2). -/
theorem fetcher_twice_no_duplicates_witness :
    cacheInv emptyCache ∧
    (cacheInv (fetchAndCachePokemon sampleWorld
        (fetchAndCachePokemon sampleWorld emptyCache (some 2) none).state (some 2) (some 1)).state
    ∧ (∀ i : Nat,
        ((fetchAndCachePokemon sampleWorld
            (fetchAndCachePokemon sampleWorld emptyCache (some 2) none).state
            (some 2) (some 1)).state.pokemon.filter
            (fun p => p.pokemonId = i)).length ≤ 1
        ∧ ((fetchAndCachePokemon sampleWorld
            (fetchAndCachePokemon sampleWorld emptyCache (some 2) none).state
            (some 2) (some 1)).state.species.filter
            (fun q => q.pokemonId = i)).length ≤ 1)
    ∧ (fetchAndCachePokemon sampleWorld
        (fetchAndCachePokemon sampleWorld emptyCache (some 2) none).state
        (some 2) (some 1)).cached = (idsFor (some 2) (some 1)).length
    ∧ (∀ i : Nat,
        pokemonCached (fetchAndCachePokemon sampleWorld emptyCache (some 2) none).state i = true →
        i ∉ (fetchAndCachePokemon sampleWorld
            (fetchAndCachePokemon sampleWorld emptyCache (some 2) none).state
            (some 2) (some 1)).fetchedIds)) :=
  ⟨⟨List.nodup_nil, List.nodup_nil⟩,
    fetcher_twice_no_duplicates sampleWorld emptyCache (some 2) none (some 2) (some 1)
      ⟨List.nodup_nil, List.nodup_nil⟩⟩

/-- **C3 (amended: for a supplied limit ≥ 1; a limit of 0 selects the
default 151, see the counterexample).** The Fetcher targets exactly the id
list `[offset+1, offset+limit]` clipped to the maximum id 1025; whenever
that list is empty — in particular for an offset at or beyond 1025 — it
returns `{success: true, cached: 0}` immediately, performing no upstream
fetch (not even the type refresh) and no cache write. -/
theorem fetcher_target_ids_empty_shortcircuit (w : World) (s : CacheState)
    (limit offset : Nat) (h : 1 ≤ limit) :
    (∀ i : Nat, i ∈ idsFor (some limit) (some offset) ↔
        (offset + 1 ≤ i ∧ i ≤ offset + limit ∧ i ≤ 1025))
    ∧ (1025 ≤ offset → idsFor (some limit) (some offset) = [])
    ∧ (idsFor (some limit) (some offset) = [] →
        fetchAndCachePokemon w s (some limit) (some offset)
          = ⟨true, 0, s, [], false⟩) := by
  have hlim : effFetchLimit (some limit) = limit := by
    simp only [effFetchLimit]
    rw [if_neg (by omega)]
  refine ⟨?_, ?_, ?_⟩
  · intro i
    simp only [idsFor, hlim, effFetchOffset, List.mem_filter, List.mem_map,
      List.mem_range, decide_eq_true_eq]
    constructor
    · rintro ⟨⟨j, hj, rfl⟩, hle⟩
      omega
    · rintro ⟨hlo, hhi, hle⟩
      exact ⟨⟨i - offset - 1, by omega, by omega⟩, hle⟩
  · intro hoff
    simp only [idsFor, hlim, effFetchOffset]
    rw [List.filter_eq_nil_iff]
    rintro i hi
    obtain ⟨j, hj, rfl⟩ := List.mem_map.mp hi
    simp only [decide_eq_true_eq]
    omega
  · intro hnil
    simp only [fetchAndCachePokemon]
    rw [if_pos (by rw [hnil]; rfl)]

set_option maxRecDepth 4000 in
/-- Counterexample to C3 as stated for every limit: a supplied limit of 0 is
falsy, so the default 151 applies — the target list is `[1, …, 151]`, not
empty, and the action reports 151 cached ids rather than a zero-count
success. -/
theorem fetcher_target_ids_cex :
    idsFor (some 0) (some 0) ≠ []
    ∧ idsFor (some 0) (some 0) = idsFor none none
    ∧ (fetchAndCachePokemon sampleWorld emptyCache (some 0) (some 0)).cached = 151 := by
  refine ⟨by decide, by decide, ?_⟩
  rw [fetchAndCachePokemon_cached]
  decide

/-- Witness for C3 (amended) at limit 5, offset 1025 (empty target list). -/
theorem fetcher_target_ids_witness :
    (1 : Nat) ≤ 5 ∧
    ((∀ i : Nat, i ∈ idsFor (some 5) (some 1025) ↔
        (1025 + 1 ≤ i ∧ i ≤ 1025 + 5 ∧ i ≤ 1025))
    ∧ (1025 ≤ 1025 → idsFor (some 5) (some 1025) = [])
    ∧ (idsFor (some 5) (some 1025) = [] →
        fetchAndCachePokemon sampleWorld emptyCache (some 5) (some 1025)
          = ⟨true, 0, emptyCache, [], false⟩)) :=
  ⟨by omega, fetcher_target_ids_empty_shortcircuit sampleWorld emptyCache 5 1025 (by omega)⟩
